import Mathlib

/-!
Verification of the genotype-statistics core of `vcfgrpaf` (src/main.rs).

Embedding conventions:
* Rust `Option<[Option<u8>; 2]>` (one normalized genotype call) becomes
  `Option (Option ℕ × Option ℕ)`; allele indices (`u8`) are naturals.
* Rust `u32` counters become naturals (counts are bounded by the number of
  genotypes processed, far below `2^32` in any run, so wrap-around never
  occurs).
* Rust `f64` values are modeled as real numbers with exact arithmetic.
* The Rust panic raised by the out-of-bounds index into the two-slot `ac`
  array in `calc_af` is modeled by `Option`, with `none` for the panic.
-/

namespace VcfGrpAf

/-- One normalized genotype call, the element type of `calc_af`'s parameter
`&[Option<[Option<u8>; 2]>]` (src/main.rs line 78): `none` is a fully
missing call, `some (a0, a1)` carries the two allele slots. -/
abbrev Genotype := Option (Option ℕ × Option ℕ)

/-- Integer fields of the Rust struct `AfStats` (src/main.rs lines 42-56);
`ac0`/`ac1` are the two slots of `ac: [u32; 2]`.  The per-genotype loop of
`calc_af` (lines 81-115) reads and writes only these fields. -/
@[ext]
structure AfCounts where
  ac0 : ℕ
  ac1 : ℕ
  an : ℕ
  n_hemi : ℕ
  n_homref : ℕ
  n_het : ℕ
  n_homalt : ℕ
  n_miss : ℕ
deriving DecidableEq

/-- Counter part of `AfStats::default()`: all counters zero. -/
def AfCounts.init : AfCounts := ⟨0, 0, 0, 0, 0, 0, 0, 0⟩

/-- Model of `st.ac[a as usize] += 1` (src/main.rs lines 91 and 102): the
`ac` array has exactly two slots, so an index `≥ 2` is an out-of-bounds
panic, modeled as `none`. -/
def bumpAc (st : AfCounts) (a : ℕ) : Option AfCounts :=
  if a = 0 then some { st with ac0 := st.ac0 + 1 }
  else if a = 1 then some { st with ac1 := st.ac1 + 1 }
  else none

/-- Body of `calc_af`'s per-genotype loop (src/main.rs lines 81-115). -/
def step (st : AfCounts) (g : Genotype) : Option AfCounts :=
  match g with
  | none => some { st with n_miss := st.n_miss + 1 }
  | some (a0, a1) =>
    match a1 with
    | none =>
      -- the haploid branch: `alleles[1].is_none()`
      match a0 with
      | none => some { st with n_miss := st.n_miss + 1 }
      | some a =>
        (bumpAc { st with an := st.an + 1 } a).map
          fun s => { s with n_hemi := s.n_hemi + 1 }
    | some y =>
      -- the diploid branch: first the `for a in [a0, a1]` an/ac pass ...
      let s1 : Option AfCounts :=
        match a0 with
        | none => some st
        | some x => bumpAc { st with an := st.an + 1 } x
      let s2 : Option AfCounts :=
        s1.bind fun s => bumpAc { s with an := s.an + 1 } y
      -- ... then the category `match (a0, a1)`; the source's `(None, None)`
      -- arm is unreachable here because `a1` is present.
      s2.map fun s =>
        match a0 with
        | some x =>
          if x = y ∧ x = 0 then { s with n_homref := s.n_homref + 1 }
          else if x = y ∧ x = 1 then { s with n_homalt := s.n_homalt + 1 }
          else { s with n_het := s.n_het + 1 }
        | none => { s with n_hemi := s.n_hemi + 1 }

/-- Whole loop of `calc_af` (src/main.rs lines 79-115), starting from the
defaulted counters; `none` models the out-of-bounds panic. -/
def calcAfLoop (genotypes : List Genotype) : Option AfCounts :=
  genotypes.foldl (fun acc g => acc.bind fun st => step st g) (some AfCounts.init)

/-- Full Rust struct `AfStats` (src/main.rs lines 42-56): the counters plus
the derived `f64` statistics, the latter modeled on ℝ. -/
structure AfStats where
  ac0 : ℕ
  ac1 : ℕ
  an : ℕ
  n_hemi : ℕ
  n_homref : ℕ
  n_het : ℕ
  n_homalt : ℕ
  n_miss : ℕ
  af : ℝ
  maf : ℝ
  mac : ℕ
  exc_het : ℝ
  hwe : ℝ

/-- Rust `calc_hwe` (src/main.rs lines 59-75).  The `u32` subtractions and
divisions are ℕ truncated subtraction and division (claim C10 shows the
subtractions never underflow on aggregates `calc_af` feeds to this
function), and `f64` arithmetic is exact real arithmetic. -/
noncomputable def calc_hwe (ac0 ac1 n_het : ℕ) : ℝ × ℝ :=
  let n_homref : ℕ := (ac0 - n_het) / 2
  let n_homalt : ℕ := (ac1 - n_het) / 2
  let n : ℕ := n_homref + n_het + n_homalt
  if n = 0 then (0, 0)
  else
    let exp_het : ℝ := (2.0 * (ac0 : ℝ) * (ac1 : ℝ)) / ((2 * n : ℕ) : ℝ)
    let chi_sq : ℝ := ((n_het : ℝ) - exp_het) ^ 2 / max exp_het 1.0
    let p : ℝ := Real.exp (-0.5 * chi_sq)
    let exc_het : ℝ := if p < 1e-6 then 0.0 else 1.0
    (exc_het, p)

/-- Derived-statistics block of `calc_af` (src/main.rs lines 117-125): when
`an > 0` it fills `af`, `mac`, `maf` and the `calc_hwe` pair; the Rust code
mutates the defaulted struct, so when `an == 0` every derived field stays
`0`. -/
noncomputable def finalizeStats (c : AfCounts) : AfStats :=
  if 0 < c.an then
    { ac0 := c.ac0, ac1 := c.ac1, an := c.an, n_hemi := c.n_hemi,
      n_homref := c.n_homref, n_het := c.n_het, n_homalt := c.n_homalt,
      n_miss := c.n_miss,
      af := (c.ac1 : ℝ) / (c.an : ℝ),
      maf := ((min c.ac0 c.ac1 : ℕ) : ℝ) / (c.an : ℝ),
      mac := min c.ac0 c.ac1,
      exc_het := (calc_hwe c.ac0 c.ac1 c.n_het).1,
      hwe := (calc_hwe c.ac0 c.ac1 c.n_het).2 }
  else
    { ac0 := c.ac0, ac1 := c.ac1, an := c.an, n_hemi := c.n_hemi,
      n_homref := c.n_homref, n_het := c.n_het, n_homalt := c.n_homalt,
      n_miss := c.n_miss,
      af := 0, maf := 0, mac := 0, exc_het := 0, hwe := 0 }

/-- Rust `calc_af` (src/main.rs lines 78-126): the per-genotype loop
followed by the derived-statistics block; `none` models the out-of-bounds
panic on an allele index `≥ 2`. -/
noncomputable def calc_af (genotypes : List Genotype) : Option AfStats :=
  (calcAfLoop genotypes).map finalizeStats

/-- Present allele indices of one call. -/
def gtIndices : Genotype → List ℕ
  | none => []
  | some (a0, a1) => [a0, a1].filterMap id

/-- All present allele indices of a call are REF(0) or ALT(1). -/
def ValidGt (g : Genotype) : Prop := ∀ a ∈ gtIndices g, a < 2

/-- All present allele indices of a sequence are REF(0) or ALT(1). -/
def ValidGts (l : List Genotype) : Prop := ∀ g ∈ l, ValidGt g

/-- Some call in the sequence carries a present allele index `≥ 2`, which
the two-slot `ac` model cannot represent. -/
def HasOOB (l : List Genotype) : Prop := ∃ g ∈ l, ∃ a ∈ gtIndices g, 2 ≤ a

/-- Observable for claim C1: total of the five genotype categories. -/
def catTotal (o : Option AfStats) : Option ℕ :=
  o.map fun st => st.n_hemi + st.n_homref + st.n_het + st.n_homalt + st.n_miss

/-- Observable for claim C3: the allele number. -/
def obsAn (o : Option AfStats) : Option ℕ := o.map AfStats.an

/-- Observable for claim C3: the sum of the two allele counts. -/
def obsAcSum (o : Option AfStats) : Option ℕ := o.map fun st => st.ac0 + st.ac1

/-- Safety observable for claim C10: the heterozygote count never exceeds
either allele count, so the two `u32` subtractions at the top of `calc_hwe`
cannot underflow. -/
def hweSafe (o : Option AfStats) : Prop :=
  ∀ st ∈ o, st.n_het ≤ st.ac0 ∧ st.n_het ≤ st.ac1

/-- Modelled from the spec: the per-entry case table of §4.3 (Statistics
Aggregator), written against the same counter record; `ac[a]` with
`a ∈ {0,1}` selects `ac0`/`ac1`. -/
def specUpdate (st : AfCounts) (g : Genotype) : AfCounts :=
  match g with
  | none => { st with n_miss := st.n_miss + 1 }
  | some (some a, none) =>
    if a = 0 then
      { st with an := st.an + 1, ac0 := st.ac0 + 1, n_hemi := st.n_hemi + 1 }
    else
      { st with an := st.an + 1, ac1 := st.ac1 + 1, n_hemi := st.n_hemi + 1 }
  | some (none, some a) =>
    if a = 0 then
      { st with an := st.an + 1, ac0 := st.ac0 + 1, n_hemi := st.n_hemi + 1 }
    else
      { st with an := st.an + 1, ac1 := st.ac1 + 1, n_hemi := st.n_hemi + 1 }
  | some (some x, some y) =>
    let s1 := if x = 0 then { st with ac0 := st.ac0 + 1 }
              else { st with ac1 := st.ac1 + 1 }
    let s2 := if y = 0 then { s1 with ac0 := s1.ac0 + 1 }
              else { s1 with ac1 := s1.ac1 + 1 }
    let s3 := { s2 with an := s2.an + 2 }
    if x = 0 ∧ y = 0 then { s3 with n_homref := s3.n_homref + 1 }
    else if x = 1 ∧ y = 1 then { s3 with n_homalt := s3.n_homalt + 1 }
    else if x ≠ y then { s3 with n_het := s3.n_het + 1 }
    else s3
  | some (none, none) => { st with n_miss := st.n_miss + 1 }

/-- Modelled from the spec: the §4.4 HWE Approximator formula, stated with
the spec's own expressions (`2·ac[0]·ac[1] / (2n)`, `exp(-(1/2)·chi_sq)`). -/
noncomputable def hweSpec (ac0 ac1 n_het : ℕ) : ℝ × ℝ :=
  let n_homref : ℕ := (ac0 - n_het) / 2
  let n_homalt : ℕ := (ac1 - n_het) / 2
  let n : ℕ := n_homref + n_het + n_homalt
  if n = 0 then (0, 0)
  else
    let exp_het : ℝ := ((2 * ac0 * ac1 : ℕ) : ℝ) / ((2 * n : ℕ) : ℝ)
    let chi_sq : ℝ := ((n_het : ℝ) - exp_het) ^ 2 / max exp_het 1
    let p : ℝ := Real.exp (-(1 / 2) * chi_sq)
    let exc_het : ℝ := if p < 1e-6 then 0 else 1
    (exc_het, p)

/-- Integer-typed tags of the per-record emission `match` (src/main.rs
lines 267-274, the `push_info_integer` arms, in source order). -/
def intTags : List String :=
  ["AC", "MAC", "AN", "N_HEMI", "N_MISS", "N_HOMREF", "N_HET", "N_HOMALT"]

/-- Float-typed tags (src/main.rs lines 275-278, `push_info_float`). -/
def floatTags : List String := ["AF", "MAF", "ExcHet", "HWE"]

/-- All tag names the emission `match` recognizes; the same names as the
`all_tags` array (src/main.rs lines 188-191). -/
def supportedTags : List String := intTags ++ floatTags

/-- Behavior of the emission `match` (src/main.rs lines 266-279) on one tag
name: `some true` pushes one integer value, `some false` pushes one float
value, `none` is the `_ => {}` arm (nothing written). -/
def pushTagKind (tag : String) : Option Bool :=
  if tag ∈ intTags then some true
  else if tag ∈ floatTags then some false
  else none

/-- Keys (with their declared kind, `true` = Integer) of the INFO values
pushed into one output record by the nested loops of src/main.rs lines
240-281: outer over groups, inner over requested tags, each recognized tag
writing one value under the key `TAG_GROUP` built by
`format!("{tag}_{grp}")`.  The pushed value is a statistic of the group's
`AfStats` and does not affect which keys are written. -/
def emitKeys (groups wantTags : List String) : List (String × Bool) :=
  groups.flatMap fun grp =>
    wantTags.filterMap fun tag =>
      (pushTagKind tag).map fun kind => (tag ++ "_" ++ grp, kind)

/-- Number of values an emitted record holds under a given key. -/
def keyCount (out : List (String × Bool)) (key : String) : ℕ :=
  out.countP fun kv => kv.1 == key

/-- Run error of `main`; the strict-mode `bail!` (src/main.rs line 171)
names the offending sample. -/
inductive RunError where
  | consistency (sample : String)
deriving DecidableEq

/-- Label-declared samples in iteration order, from
`group_map.values().flat_map(|v| v.iter())` (src/main.rs line 169).  The
source iterates these with the pattern `(s, _)` over `&String` items, which
is a Rust type error; binding the sample name is the only reading
consistent with the loop body and with the `--strict` flag's doc comment
(see claim C9). -/
def labelSamples (groupMap : List (String × List String)) : List String :=
  (groupMap.map Prod.snd).flatten

/-- Strict-mode sanity check (src/main.rs lines 168-174): abort at the
first label-declared sample missing from the VCF header's sample list. -/
def strictCheck (samples : List String)
    (groupMap : List (String × List String)) : Except RunError Unit :=
  match (labelSamples groupMap).find? (fun s => ! samples.contains s) with
  | some s => Except.error (RunError.consistency s)
  | none => Except.ok ()

/-- Phase order of `main` around the strict check (src/main.rs lines
159-284): header read, then — only under `--strict` — the sanity check,
and only afterwards the per-variant loop; one `calc_af` aggregate stands
for the processing of one variant record, and an error run emits no
per-variant output at all. -/
noncomputable def runPipeline (strict : Bool) (samples : List String)
    (groupMap : List (String × List String)) (records : List (List Genotype)) :
    Except RunError (List (Option AfStats)) :=
  if strict then
    match strictCheck samples groupMap with
    | Except.error e => Except.error e
    | Except.ok _ => Except.ok (records.map calc_af)
  else Except.ok (records.map calc_af)

/-- Behavior of `step` on calls whose present indices are all `< 2`,
as a total function; `step_eq_of_valid` connects it to `step`. -/
def bumpT (st : AfCounts) (a : ℕ) : AfCounts :=
  if a = 0 then { st with ac0 := st.ac0 + 1 } else { st with ac1 := st.ac1 + 1 }

/-- Total companion of `step`; agrees with `step` on valid calls
(`step_eq_of_valid`). -/
def stepT (st : AfCounts) (g : Genotype) : AfCounts :=
  match g with
  | none => { st with n_miss := st.n_miss + 1 }
  | some (a0, a1) =>
    match a1 with
    | none =>
      match a0 with
      | none => { st with n_miss := st.n_miss + 1 }
      | some a =>
        let s := bumpT { st with an := st.an + 1 } a
        { s with n_hemi := s.n_hemi + 1 }
    | some y =>
      let s1 : AfCounts :=
        match a0 with
        | none => st
        | some x => bumpT { st with an := st.an + 1 } x
      let s2 : AfCounts := bumpT { s1 with an := s1.an + 1 } y
      match a0 with
      | some x =>
        if x = y ∧ x = 0 then { s2 with n_homref := s2.n_homref + 1 }
        else if x = y ∧ x = 1 then { s2 with n_homalt := s2.n_homalt + 1 }
        else { s2 with n_het := s2.n_het + 1 }
      | none => { s2 with n_hemi := s2.n_hemi + 1 }

/-- Componentwise sum of counter records, used to show each loop entry
contributes a state-independent increment. -/
def AfCounts.add (s t : AfCounts) : AfCounts :=
  ⟨s.ac0 + t.ac0, s.ac1 + t.ac1, s.an + t.an, s.n_hemi + t.n_hemi,
   s.n_homref + t.n_homref, s.n_het + t.n_het, s.n_homalt + t.n_homalt,
   s.n_miss + t.n_miss⟩

/-- Sum of the five genotype-category counters of one counter record. -/
def catSum (c : AfCounts) : ℕ :=
  c.n_hemi + c.n_homref + c.n_het + c.n_homalt + c.n_miss

instance (g : Genotype) : Decidable (ValidGt g) := by
  unfold ValidGt; infer_instance

instance (l : List Genotype) : Decidable (ValidGts l) := by
  unfold ValidGts; infer_instance

instance (l : List Genotype) : Decidable (HasOOB l) := by
  unfold HasOOB; infer_instance

lemma bumpAc_eq (st : AfCounts) (a : ℕ) (h : a < 2) :
    bumpAc st a = some (bumpT st a) := by
  interval_cases a <;> rfl

lemma gtIndices_valid_haploid {a : ℕ} (hv : ValidGt (some (some a, none))) : a < 2 :=
  hv a (by simp [gtIndices])

lemma step_eq_of_valid (st : AfCounts) (g : Genotype) (hv : ValidGt g) :
    step st g = some (stepT st g) := by
  match g with
  | none => rfl
  | some (none, none) => rfl
  | some (some a, none) =>
    have ha : a < 2 := hv a (by simp [gtIndices])
    interval_cases a <;> rfl
  | some (none, some y) =>
    have hy : y < 2 := hv y (by simp [gtIndices])
    interval_cases y <;> rfl
  | some (some x, some y) =>
    have hx : x < 2 := hv x (by simp [gtIndices])
    have hy : y < 2 := hv y (by simp [gtIndices])
    interval_cases x <;> interval_cases y <;> rfl

lemma bumpAc_eq_none (st : AfCounts) (a : ℕ) (h : 2 ≤ a) :
    bumpAc st a = none := by
  unfold bumpAc
  rw [if_neg (by omega), if_neg (by omega)]

lemma step_eq_none_of_invalid (st : AfCounts) (g : Genotype) (hv : ¬ ValidGt g) :
    step st g = none := by
  match g with
  | none => exact absurd (by simp [ValidGt, gtIndices]) hv
  | some (none, none) => exact absurd (by simp [ValidGt, gtIndices]) hv
  | some (some a, none) =>
    have ha : 2 ≤ a := by
      by_contra h
      exact hv (by simp [ValidGt, gtIndices]; omega)
    simp [step, bumpAc_eq_none _ _ ha]
  | some (none, some y) =>
    have hy : 2 ≤ y := by
      by_contra h
      exact hv (by simp [ValidGt, gtIndices]; omega)
    simp [step, bumpAc_eq_none _ _ hy]
  | some (some x, some y) =>
    have hxy : 2 ≤ x ∨ 2 ≤ y := by
      by_contra h
      push_neg at h
      exact hv (by simp [ValidGt, gtIndices]; omega)
    rcases hxy with hx | hy
    · simp [step, bumpAc_eq_none _ _ hx]
    · rcases Nat.lt_or_ge x 2 with hx | hx
      · simp [step, bumpAc_eq _ _ hx, bumpAc_eq_none _ _ hy]
      · simp [step, bumpAc_eq_none _ _ hx]

lemma foldl_none (l : List Genotype) :
    l.foldl (fun acc g => acc.bind fun st => step st g) none = none := by
  induction l with
  | nil => rfl
  | cons g t ih => simpa using ih

lemma foldl_some_of_valid (l : List Genotype) :
    ∀ st : AfCounts, ValidGts l →
      l.foldl (fun acc g => acc.bind fun s => step s g) (some st)
        = some (l.foldl stepT st) := by
  induction l with
  | nil => intro st _; rfl
  | cons g t ih =>
    intro st hv
    have hg : ValidGt g := hv g (List.mem_cons_self g t)
    have ht : ValidGts t := fun x hx => hv x (List.mem_cons_of_mem g hx)
    have hbind : ((some st).bind fun s => step s g) = some (stepT st g) := by
      simpa using step_eq_of_valid st g hg
    rw [List.foldl_cons, hbind]
    exact ih (stepT st g) ht

lemma calcAfLoop_eq_of_valid (l : List Genotype) (hv : ValidGts l) :
    calcAfLoop l = some (l.foldl stepT AfCounts.init) :=
  foldl_some_of_valid l AfCounts.init hv

lemma stepT_add (st : AfCounts) (g : Genotype) :
    stepT st g = AfCounts.add st (stepT AfCounts.init g) := by
  match g with
  | none => rfl
  | some (none, none) => rfl
  | some (some a, none) =>
    simp only [stepT, bumpT, AfCounts.add, AfCounts.init]
    split_ifs <;> rfl
  | some (none, some y) =>
    simp only [stepT, bumpT, AfCounts.add, AfCounts.init]
    split_ifs <;> rfl
  | some (some x, some y) =>
    simp only [stepT, bumpT, AfCounts.add, AfCounts.init]
    split_ifs <;> rfl

lemma add_right_swap (s u v : AfCounts) :
    AfCounts.add (AfCounts.add s u) v = AfCounts.add (AfCounts.add s v) u := by
  simp only [AfCounts.add, AfCounts.mk.injEq]
  omega

lemma stepT_comm (st : AfCounts) (a b : Genotype) :
    stepT (stepT st a) b = stepT (stepT st b) a := by
  rw [stepT_add st a, stepT_add (AfCounts.add st (stepT AfCounts.init a)) b,
    stepT_add st b, stepT_add (AfCounts.add st (stepT AfCounts.init b)) a]
  exact add_right_swap st (stepT AfCounts.init a) (stepT AfCounts.init b)

lemma foldl_stepT_perm {l₁ l₂ : List Genotype} (h : l₁.Perm l₂) :
    ∀ st : AfCounts, l₁.foldl stepT st = l₂.foldl stepT st := by
  induction h with
  | nil => intro st; rfl
  | cons x _ ih => intro st; simp only [List.foldl_cons]; exact ih (stepT st x)
  | swap x y l =>
    intro st
    simp only [List.foldl_cons]
    rw [stepT_comm]
  | trans _ _ ih₁ ih₂ => intro st; rw [ih₁ st, ih₂ st]

lemma catSum_add (s t : AfCounts) :
    catSum (AfCounts.add s t) = catSum s + catSum t := by
  simp only [catSum, AfCounts.add]
  omega

lemma catSum_delta (g : Genotype) : catSum (stepT AfCounts.init g) = 1 := by
  match g with
  | none => rfl
  | some (none, none) => rfl
  | some (some a, none) =>
    simp only [stepT, bumpT, AfCounts.init, catSum]
    split_ifs <;> rfl
  | some (none, some y) =>
    simp only [stepT, bumpT, AfCounts.init, catSum]
    split_ifs <;> rfl
  | some (some x, some y) =>
    simp only [stepT, bumpT, AfCounts.init, catSum]
    split_ifs <;> rfl

lemma catSum_foldl (l : List Genotype) :
    ∀ st : AfCounts, catSum (l.foldl stepT st) = catSum st + l.length := by
  induction l with
  | nil => intro st; simp
  | cons g t ih =>
    intro st
    simp only [List.foldl_cons, List.length_cons]
    rw [ih (stepT st g), stepT_add, catSum_add, catSum_delta]
    omega

lemma an_delta (g : Genotype) :
    (stepT AfCounts.init g).an
      = (stepT AfCounts.init g).ac0 + (stepT AfCounts.init g).ac1 := by
  match g with
  | none => rfl
  | some (none, none) => rfl
  | some (some a, none) =>
    simp only [stepT, bumpT, AfCounts.init]
    split_ifs <;> rfl
  | some (none, some y) =>
    simp only [stepT, bumpT, AfCounts.init]
    split_ifs <;> rfl
  | some (some x, some y) =>
    simp only [stepT, bumpT, AfCounts.init]
    split_ifs <;> rfl

lemma cat_le_an_delta (g : Genotype) :
    (stepT AfCounts.init g).n_hemi + (stepT AfCounts.init g).n_homref
      + (stepT AfCounts.init g).n_het + (stepT AfCounts.init g).n_homalt
      ≤ (stepT AfCounts.init g).an := by
  match g with
  | none => simp [stepT, AfCounts.init]
  | some (none, none) => simp [stepT, AfCounts.init]
  | some (some a, none) =>
    simp only [stepT, bumpT, AfCounts.init]
    split_ifs <;> simp
  | some (none, some y) =>
    simp only [stepT, bumpT, AfCounts.init]
    split_ifs <;> simp
  | some (some x, some y) =>
    simp only [stepT, bumpT, AfCounts.init]
    split_ifs <;> simp

lemma het_delta (g : Genotype) (hv : ValidGt g) :
    (stepT AfCounts.init g).n_het ≤ (stepT AfCounts.init g).ac0
      ∧ (stepT AfCounts.init g).n_het ≤ (stepT AfCounts.init g).ac1 := by
  match g with
  | none => simp [stepT, AfCounts.init]
  | some (none, none) => simp [stepT, AfCounts.init]
  | some (some a, none) =>
    have ha : a < 2 := hv a (by simp [gtIndices])
    interval_cases a <;> simp [stepT, bumpT, AfCounts.init]
  | some (none, some y) =>
    have hy : y < 2 := hv y (by simp [gtIndices])
    interval_cases y <;> simp [stepT, bumpT, AfCounts.init]
  | some (some x, some y) =>
    have hx : x < 2 := hv x (by simp [gtIndices])
    have hy : y < 2 := hv y (by simp [gtIndices])
    interval_cases x <;> interval_cases y <;> simp [stepT, bumpT, AfCounts.init]

lemma an_foldl (l : List Genotype) :
    ∀ st : AfCounts, st.an = st.ac0 + st.ac1 →
      (l.foldl stepT st).an = (l.foldl stepT st).ac0 + (l.foldl stepT st).ac1 := by
  induction l with
  | nil => intro st h; simpa using h
  | cons g t ih =>
    intro st h
    simp only [List.foldl_cons]
    refine ih (stepT st g) ?_
    rw [stepT_add]
    have := an_delta g
    simp only [AfCounts.add]
    omega

lemma het_foldl (l : List Genotype) :
    ∀ st : AfCounts, ValidGts l →
      st.n_het ≤ st.ac0 → st.n_het ≤ st.ac1 →
      (l.foldl stepT st).n_het ≤ (l.foldl stepT st).ac0
        ∧ (l.foldl stepT st).n_het ≤ (l.foldl stepT st).ac1 := by
  induction l with
  | nil => intro st _ h0 h1; exact ⟨h0, h1⟩
  | cons g t ih =>
    intro st hv h0 h1
    have hg : ValidGt g := hv g (List.mem_cons_self g t)
    have ht : ValidGts t := fun x hx => hv x (List.mem_cons_of_mem g hx)
    simp only [List.foldl_cons]
    have hd := het_delta g hg
    refine ih (stepT st g) ht ?_ ?_ <;>
      (rw [stepT_add]; simp only [AfCounts.add]; omega)

lemma cat_le_an_foldl (l : List Genotype) :
    ∀ st : AfCounts,
      st.n_hemi + st.n_homref + st.n_het + st.n_homalt ≤ st.an →
      (l.foldl stepT st).n_hemi + (l.foldl stepT st).n_homref
        + (l.foldl stepT st).n_het + (l.foldl stepT st).n_homalt
        ≤ (l.foldl stepT st).an := by
  induction l with
  | nil => intro st h; simpa using h
  | cons g t ih =>
    intro st h
    simp only [List.foldl_cons]
    refine ih (stepT st g) ?_
    have := cat_le_an_delta g
    rw [stepT_add]
    simp only [AfCounts.add]
    omega

lemma foldl_none_of_invalid_mem (l : List Genotype) :
    ∀ st0 : AfCounts, (∃ g ∈ l, ¬ ValidGt g) →
      l.foldl (fun acc g => acc.bind fun s => step s g) (some st0) = none := by
  induction l with
  | nil => rintro st0 ⟨g, hg, -⟩; cases hg
  | cons g t ih =>
    rintro st0 ⟨g1, hg1, hinv⟩
    simp only [List.foldl_cons]
    rcases List.mem_cons.mp hg1 with rfl | hmem
    · rw [show ((some st0).bind fun s => step s g1) = none by
        simpa using step_eq_none_of_invalid st0 g1 hinv]
      exact foldl_none t
    · cases hb : (some st0).bind fun s => step s g with
      | none => exact foldl_none t
      | some st1 => exact ih st1 ⟨g1, hmem, hinv⟩

lemma calcAfLoop_none_of_oob (l : List Genotype) (h : HasOOB l) :
    calcAfLoop l = none := by
  obtain ⟨g0, hg0, a0, ha0, ha2⟩ := h
  refine foldl_none_of_invalid_mem l AfCounts.init ⟨g0, hg0, ?_⟩
  intro hvg
  exact absurd (hvg a0 ha0) (by omega)

lemma finalize_counts (c : AfCounts) :
    (finalizeStats c).ac0 = c.ac0 ∧ (finalizeStats c).ac1 = c.ac1 ∧
    (finalizeStats c).an = c.an ∧ (finalizeStats c).n_hemi = c.n_hemi ∧
    (finalizeStats c).n_homref = c.n_homref ∧ (finalizeStats c).n_het = c.n_het ∧
    (finalizeStats c).n_homalt = c.n_homalt ∧ (finalizeStats c).n_miss = c.n_miss := by
  unfold finalizeStats
  split <;> exact ⟨rfl, rfl, rfl, rfl, rfl, rfl, rfl, rfl⟩

/-- C1: on any sequence of normalized calls whose present allele indices
are all in {0,1}, `calc_af` succeeds and its five genotype-category
counters sum to the length of the input (every masked sample lands in
exactly one category). -/
theorem C1_mask_partition (l : List Genotype) (hv : ValidGts l) :
    catTotal (calc_af l) = some l.length := by
  unfold calc_af catTotal
  rw [calcAfLoop_eq_of_valid l hv]
  simp only [Option.map_some', Option.some.injEq]
  obtain ⟨-, -, -, h3, h4, h5, h6, h7⟩ :=
    finalize_counts (l.foldl stepT AfCounts.init)
  rw [h3, h4, h5, h6, h7]
  have hc := catSum_foldl l AfCounts.init
  simpa [catSum, AfCounts.init] using hc

theorem C1_mask_partition_witness :
    ValidGts [(none : Genotype)]
      ∧ catTotal (calc_af [(none : Genotype)]) = some 1 :=
  ⟨by decide, C1_mask_partition [none] (by decide)⟩

/-- C3: when only REF/ALT indices occur, the allele number equals the sum
of the two allele counts. -/
theorem C3_an_eq_ac_sum (l : List Genotype) (hv : ValidGts l) :
    obsAn (calc_af l) = obsAcSum (calc_af l) := by
  unfold calc_af obsAn obsAcSum
  rw [calcAfLoop_eq_of_valid l hv]
  simp only [Option.map_some', Option.some.injEq]
  obtain ⟨h0, h1, h2, -⟩ := finalize_counts (l.foldl stepT AfCounts.init)
  show (finalizeStats _).an = _
  rw [h0, h1, h2]
  exact an_foldl l AfCounts.init rfl

theorem C3_an_eq_ac_sum_witness :
    ValidGts [some (some 0, some 1), some (some 1, none)]
      ∧ obsAn (calc_af [some (some 0, some 1), some (some 1, none)])
        = obsAcSum (calc_af [some (some 0, some 1), some (some 1, none)]) :=
  ⟨by decide, C3_an_eq_ac_sum _ (by decide)⟩

/-- C5: `calc_af` is an order-independent fold; permuting a REF/ALT-only
input leaves the whole aggregate (in particular `af`) unchanged. -/
theorem C5_fold_perm_invariant (l₁ l₂ : List Genotype) (hp : l₁.Perm l₂)
    (hv : ValidGts l₁) : calc_af l₁ = calc_af l₂ := by
  have hv₂ : ValidGts l₂ := fun g hg => hv g (hp.mem_iff.mpr hg)
  unfold calc_af
  rw [calcAfLoop_eq_of_valid l₁ hv, calcAfLoop_eq_of_valid l₂ hv₂,
    foldl_stepT_perm hp AfCounts.init]

theorem C5_fold_perm_invariant_witness :
    ([some (some 0, some 1), none, some (some 1, some 1)].Perm
        [some (some 1, some 1), some (some 0, some 1), none])
      ∧ ValidGts [some (some 0, some 1), none, some (some 1, some 1)]
      ∧ calc_af [some (some 0, some 1), none, some (some 1, some 1)]
        = calc_af [some (some 1, some 1), some (some 0, some 1), none] :=
  ⟨by decide, by decide, C5_fold_perm_invariant _ _ (by decide) (by decide)⟩

/-- C7 (amended): a present allele index `≥ 2` anywhere in the input makes
`calc_af` hit the out-of-bounds access on the two-slot `ac` array, aborting
the whole aggregation (modeled as `none`); no `FormatError` value is
produced, because `calc_af` has no recoverable error channel at all. -/
theorem C7_oob_abort (l : List Genotype) (h : HasOOB l) : calc_af l = none := by
  unfold calc_af
  rw [calcAfLoop_none_of_oob l h]
  rfl

theorem C7_oob_abort_witness :
    HasOOB [some (some 2, none)] ∧ calc_af [some (some 2, none)] = none :=
  ⟨by decide, C7_oob_abort _ (by decide)⟩

/-- C7 counterexample to the claim as stated: at the concrete input
`[0/2-like call with index 2]` the aggregator does not surface any error
value — it aborts with the array-bounds panic (`none`), there being no
`FormatError` (or any other error) in `calc_af`'s return type. -/
theorem C7_counterexample : calc_af [some (some 2, some 2)] = none := rfl

/-- C10: on REF/ALT-only input the aggregate satisfies
`n_het ≤ ac[0]` and `n_het ≤ ac[1]`, so the `u32` subtractions
`ac0 - n_het` and `ac1 - n_het` in `calc_hwe` cannot underflow. -/
theorem C10_no_underflow (l : List Genotype) (hv : ValidGts l) :
    hweSafe (calc_af l) := by
  unfold calc_af hweSafe
  rw [calcAfLoop_eq_of_valid l hv]
  intro st hst
  simp only [Option.map_some', Option.mem_def, Option.some.injEq] at hst
  subst hst
  obtain ⟨h0, h1, -, -, -, h5, -, -⟩ :=
    finalize_counts (l.foldl stepT AfCounts.init)
  rw [h0, h1, h5]
  exact het_foldl l AfCounts.init hv (Nat.le_refl 0) (Nat.le_refl 0)

theorem C10_no_underflow_witness :
    ValidGts [some (some 0, some 1), some (some 0, some 0)]
      ∧ hweSafe (calc_af [some (some 0, some 1), some (some 0, some 0)]) :=
  ⟨by decide, C10_no_underflow _ (by decide)⟩

/-- C2: on a single call whose present indices are in {0,1}, the loop body
of `calc_af` performs exactly the update demanded by the spec's §4.3 case
table. -/
theorem C2_update_table (st : AfCounts) (g : Genotype) (hv : ValidGt g) :
    step st g = some (specUpdate st g) := by
  match g with
  | none => rfl
  | some (none, none) => rfl
  | some (some a, none) =>
    have ha : a < 2 := hv a (by simp [gtIndices])
    interval_cases a <;> rfl
  | some (none, some y) =>
    have hy : y < 2 := hv y (by simp [gtIndices])
    interval_cases y <;> rfl
  | some (some x, some y) =>
    have hx : x < 2 := hv x (by simp [gtIndices])
    have hy : y < 2 := hv y (by simp [gtIndices])
    interval_cases x <;> interval_cases y <;> rfl

theorem C2_update_table_witness :
    ValidGt (some (some 0, some 1))
      ∧ step AfCounts.init (some (some 0, some 1))
        = some (specUpdate AfCounts.init (some (some 0, some 1))) :=
  ⟨by decide, C2_update_table _ _ (by decide)⟩

lemma finalize_an_zero (c : AfCounts) (h : c.an = 0) :
    (finalizeStats c).af = 0 ∧ (finalizeStats c).maf = 0
      ∧ (finalizeStats c).mac = 0 := by
  unfold finalizeStats
  rw [if_neg (by omega)]
  exact ⟨rfl, rfl, rfl⟩

lemma finalize_an_pos (c : AfCounts) (h : 0 < c.an) :
    (finalizeStats c).af = (c.ac1 : ℝ) / (c.an : ℝ)
      ∧ (finalizeStats c).mac = min c.ac0 c.ac1
      ∧ (finalizeStats c).maf = ((min c.ac0 c.ac1 : ℕ) : ℝ) / (c.an : ℝ) := by
  unfold finalizeStats
  rw [if_pos h]
  exact ⟨rfl, rfl, rfl⟩

/-- C4 counterexample: the claim additionally asserts that `an == 0` forces
all category counts to zero, but the one-element input of a single missing
call gives `an = 0` with `n_miss = 1`. -/
theorem C4_counterexample :
    ¬ (∀ (l : List Genotype) (st : AfStats), ValidGts l → calc_af l = some st →
        (st.an = 0 → st.af = 0 ∧ st.maf = 0 ∧ st.mac = 0 ∧
          st.n_hemi = 0 ∧ st.n_homref = 0 ∧ st.n_het = 0 ∧ st.n_homalt = 0 ∧
          st.n_miss = 0)
        ∧ (0 < st.an →
            st.af = (st.ac1 : ℝ) / (st.an : ℝ) ∧ st.mac = min st.ac0 st.ac1 ∧
            st.maf = (st.mac : ℝ) / (st.an : ℝ))) := by
  intro h
  have h1 := (h [none] (finalizeStats ⟨0, 0, 0, 0, 0, 0, 0, 1⟩) (by decide) rfl).1
  have hfc := finalize_counts ⟨0, 0, 0, 0, 0, 0, 0, 1⟩
  obtain ⟨-, -, -, -, -, -, -, hm⟩ := h1 hfc.2.2.1
  have hm1 : (finalizeStats (⟨0, 0, 0, 0, 0, 0, 0, 1⟩ : AfCounts)).n_miss = 1 :=
    hfc.2.2.2.2.2.2.2
  rw [hm] at hm1
  exact absurd hm1 (by decide)

/-- C4 (amended): on REF/ALT-only input `calc_af` always succeeds; when
`an = 0` it returns `af = maf = 0`, `mac = 0` and zero hemi/homref/het/
homalt counters (`n_miss` may be positive), and when `an > 0` it returns
`af = ac[1]/an`, `mac = min(ac[0],ac[1])`, `maf = mac/an`. -/
theorem C4_no_div_by_zero (l : List Genotype) (hv : ValidGts l) :
    (calc_af l).isSome = true
      ∧ ∀ st : AfStats, calc_af l = some st →
          (st.an = 0 → st.af = 0 ∧ st.maf = 0 ∧ st.mac = 0 ∧
            st.n_hemi = 0 ∧ st.n_homref = 0 ∧ st.n_het = 0 ∧ st.n_homalt = 0)
          ∧ (0 < st.an →
              st.af = (st.ac1 : ℝ) / (st.an : ℝ)
                ∧ st.mac = min st.ac0 st.ac1
                ∧ st.maf = (st.mac : ℝ) / (st.an : ℝ)) := by
  unfold calc_af
  rw [calcAfLoop_eq_of_valid l hv]
  refine ⟨rfl, ?_⟩
  intro st hst
  simp only [Option.map_some', Option.some.injEq] at hst
  subst hst
  obtain ⟨h0, h1, h2, h3, h4, h5, h6, h7⟩ :=
    finalize_counts (l.foldl stepT AfCounts.init)
  constructor
  · intro han
    have hFan : (l.foldl stepT AfCounts.init).an = 0 := by rw [← h2]; exact han
    have hcat := cat_le_an_foldl l AfCounts.init (by simp [AfCounts.init])
    obtain ⟨hf0, hf1, hf2⟩ := finalize_an_zero _ hFan
    refine ⟨hf0, hf1, hf2, ?_, ?_, ?_, ?_⟩ <;> omega
  · intro han
    have hFan : 0 < (l.foldl stepT AfCounts.init).an := by rw [← h2]; exact han
    obtain ⟨hf0, hf1, hf2⟩ := finalize_an_pos _ hFan
    refine ⟨?_, ?_, ?_⟩
    · rw [hf0, h1, h2]
    · rw [hf1, h0, h1]
    · rw [hf2, hf1, h2]

theorem C4_no_div_by_zero_witness :
    ValidGts [some (some 0, some 1)]
      ∧ (calc_af [some (some 0, some 1)]).isSome = true :=
  ⟨by decide, (C4_no_div_by_zero _ (by decide)).1⟩

/-- C6: `calc_hwe` computes exactly the spec's §4.4 formula (stated under
the no-underflow hypotheses that make ℕ subtraction agree with `u32`
subtraction), and on the spec's scenario `ac = [3,1]`, `n_het = 1` it
deterministically returns `(1, exp(-1/12))`. -/
theorem C6_hwe_formula :
    (∀ ac0 ac1 n_het : ℕ, n_het ≤ ac0 → n_het ≤ ac1 →
        calc_hwe ac0 ac1 n_het = hweSpec ac0 ac1 n_het)
      ∧ calc_hwe 3 1 1 = (1, Real.exp (-(1 / 12))) := by
  constructor
  · intro a b c h0 h1
    have hd : (2.0 * (a : ℝ) * (b : ℝ)) = ((2 * a * b : ℕ) : ℝ) := by
      push_cast; ring
    have h00 : (0.0 : ℝ) = 0 := by norm_num
    have h10 : (1.0 : ℝ) = 1 := by norm_num
    have h05 : (-0.5 : ℝ) = -(1 / 2) := by norm_num
    simp only [calc_hwe, hweSpec, hd, h00, h10, h05]
  · have hlb : (1e-6 : ℝ) < Real.exp (-(1 / 12)) := by
      have h := Real.add_one_le_exp (-(1 / 12) : ℝ)
      have : (1e-6 : ℝ) < -(1 / 12) + 1 := by norm_num
      linarith
    have hnn : ¬ ((3 - 1) / 2 + 1 + (1 - 1) / 2 : ℕ) = 0 := by norm_num
    simp only [calc_hwe]
    rw [if_neg hnn]
    have e4 : ((2 * ((3 - 1) / 2 + 1 + (1 - 1) / 2) : ℕ) : ℝ) = 4 := by norm_num
    rw [e4]
    have eh : (2.0 * ((3 : ℕ) : ℝ) * ((1 : ℕ) : ℝ)) / (4 : ℝ) = 3 / 2 := by
      norm_num
    rw [eh]
    have hmax : max ((3 : ℝ) / 2) 1.0 = 3 / 2 := by norm_num
    rw [hmax]
    have hchi : (((1 : ℕ) : ℝ) - 3 / 2) ^ 2 / ((3 : ℝ) / 2) = 1 / 6 := by
      norm_num
    rw [hchi]
    have harg : (-0.5 : ℝ) * (1 / 6) = -(1 / 12) := by norm_num
    rw [harg]
    rw [if_neg (not_lt.mpr hlb.le)]
    norm_num

theorem C6_hwe_formula_witness :
    1 ≤ 3 ∧ 1 ≤ 1 ∧ calc_hwe 3 1 1 = hweSpec 3 1 1 :=
  ⟨by decide, by decide, C6_hwe_formula.1 3 1 1 (by decide) (by decide)⟩

lemma pre_of_append_eq {l1 l2 x y : List Char} (h : l1 ++ x = l2 ++ y)
    (hlen : l1.length ≤ l2.length) : l1 <+: l2 :=
  List.prefix_of_prefix_length_le (h ▸ List.prefix_append l1 x)
    (List.prefix_append l2 y) hlen

lemma tag_prefix_inj :
    ∀ t1 ∈ supportedTags, ∀ t2 ∈ supportedTags,
      (t1.data ++ ['_'] <+: t2.data ++ ['_']) → t1 = t2 := by decide

lemma key_inj {t1 t2 g1 g2 : String} (h1 : t1 ∈ supportedTags)
    (h2 : t2 ∈ supportedTags) (h : t1 ++ "_" ++ g1 = t2 ++ "_" ++ g2) :
    t1 = t2 ∧ g1 = g2 := by
  have hd : (t1.data ++ ['_']) ++ g1.data = (t2.data ++ ['_']) ++ g2.data := by
    have hdata := congrArg String.data h
    simpa [String.data_append, List.append_assoc] using hdata
  have hteq : t1 = t2 := by
    rcases Nat.le_total t1.data.length t2.data.length with hle | hle
    · exact tag_prefix_inj t1 h1 t2 h2
        (pre_of_append_eq hd (by simpa using hle))
    · exact (tag_prefix_inj t2 h2 t1 h1
        (pre_of_append_eq hd.symm (by simpa using hle))).symm
  subst hteq
  refine ⟨rfl, String.ext ?_⟩
  exact List.append_cancel_left hd

lemma pushTagKind_none_iff (t : String) :
    pushTagKind t = none ↔ t ∉ supportedTags := by
  unfold pushTagKind supportedTags
  split_ifs with h1 h2
  · simp [List.mem_append, h1]
  · simp [List.mem_append, h2]
  · simp [List.mem_append, h1, h2]

lemma emit_inner_count (wts : List String) (tag grp grp' : String)
    (htag : tag ∈ supportedTags) :
    (wts.filterMap fun t => (pushTagKind t).map
        fun kind => (t ++ "_" ++ grp', kind)).countP
        (fun kv => kv.1 == tag ++ "_" ++ grp)
      = if grp' = grp then wts.count tag else 0 := by
  induction wts with
  | nil => simp
  | cons t ts ih =>
    rcases hk : pushTagKind t with _ | kind
    · have hne : t ≠ tag := by
        intro he
        rw [he] at hk
        exact absurd htag ((pushTagKind_none_iff tag).mp hk)
      rw [List.filterMap_cons, hk]
      simp only [Option.map_none']
      rw [ih, List.count_cons]
      simp [hne]
    · have hts : t ∈ supportedTags := by
        by_contra hmem
        rw [(pushTagKind_none_iff t).mpr hmem] at hk
        cases hk
      rw [List.filterMap_cons, hk]
      simp only [Option.map_some']
      rw [List.countP_cons, ih, List.count_cons]
      by_cases hkey : t ++ "_" ++ grp' = tag ++ "_" ++ grp
      · obtain ⟨hteq, hgeq⟩ := key_inj hts htag hkey
        subst hteq; subst hgeq
        simp
      · have hb : ((t ++ "_" ++ grp', kind).1 == tag ++ "_" ++ grp) = false := by
        -- hmm  need beq false
          simp [hkey]
        rw [hb]
        by_cases hg : grp' = grp
        · subst hg
          have hne : t ≠ tag := fun he => hkey (by rw [he])
          simp [hne]
        · simp [hg]

lemma emit_count_notin (gs wts : List String) (tag grp : String)
    (htag : tag ∈ supportedTags) (hg : grp ∉ gs) :
    keyCount (emitKeys gs wts) (tag ++ "_" ++ grp) = 0 := by
  induction gs with
  | nil => rfl
  | cons g gs' ih =>
    have hgg : g ≠ grp := fun he => hg (he ▸ List.mem_cons_self g gs')
    have hg' : grp ∉ gs' := fun hm => hg (List.mem_cons_of_mem g hm)
    unfold keyCount emitKeys at *
    rw [List.flatMap_cons, List.countP_append]
    rw [emit_inner_count wts tag grp g htag, if_neg hgg, ih hg']

/-- C8 (amended): for every group and every requested tag that is one of
the twelve recognized statistics, assuming no tag is requested twice
(group names are distinct by construction, being map keys), the per-record
emission writes exactly one typed value under the key `TAG_GROUP`;
requested tags outside the twelve are silently skipped. -/
theorem C8_emission_keys (groups wantTags : List String) (tag grp : String)
    (hgn : groups.Nodup) (hwn : wantTags.Nodup) (htw : tag ∈ wantTags)
    (hts : tag ∈ supportedTags) (hgg : grp ∈ groups) :
    keyCount (emitKeys groups wantTags) (tag ++ "_" ++ grp) = 1 := by
  induction groups with
  | nil => cases hgg
  | cons g gs ih =>
    obtain ⟨hnotin, hgs⟩ := List.nodup_cons.mp hgn
    unfold keyCount emitKeys
    rw [List.flatMap_cons, List.countP_append]
    rcases List.mem_cons.mp hgg with rfl | hmem
    · rw [emit_inner_count wantTags tag grp grp hts, if_pos rfl,
        List.count_eq_one_of_mem hwn htw]
      have h0 := emit_count_notin gs wantTags tag grp hts hnotin
      unfold keyCount emitKeys at h0
      rw [h0]
    · have hne : g ≠ grp := fun he => hnotin (he ▸ hmem)
      rw [emit_inner_count wantTags tag grp g hts, if_neg hne]
      have h1 := ih hgs hmem
      unfold keyCount emitKeys at h1
      rw [h1]

theorem C8_emission_keys_witness :
    ["g1", "g2"].Nodup ∧ ["FOO", "AC"].Nodup ∧ "AC" ∈ ["FOO", "AC"]
      ∧ "AC" ∈ supportedTags ∧ "g2" ∈ ["g1", "g2"]
      ∧ keyCount (emitKeys ["g1", "g2"] ["FOO", "AC"]) ("AC" ++ "_" ++ "g2") = 1 :=
  ⟨by decide, by decide, by decide, by decide, by decide,
    C8_emission_keys _ _ _ _ (by decide) (by decide) (by decide) (by decide)
      (by decide)⟩

/-- C8 counterexample to the claim as stated: a requested tag the emission
`match` does not recognize (here `FOO`) falls into the `_ => {}` arm, so no
value keyed `FOO_g` is written at all. -/
theorem C8_counterexample :
    ¬ (∀ (groups wantTags : List String) (tag grp : String),
        tag ∈ wantTags → grp ∈ groups →
        keyCount (emitKeys groups wantTags) (tag ++ "_" ++ grp) = 1) := by
  intro h
  have := h ["g"] ["FOO"] "FOO" "g" (by decide) (by decide)
  exact absurd this (by decide)

/-- C9 (behavior of the strict gate as modeled): with `--strict`, a label
sample (`B`) absent from the VCF sample list (`["A"]`) aborts the run with
the consistency error before any per-variant output is produced — even
though a variant record is pending — and without `--strict` the same
inputs are processed with no such check. -/
theorem C9_strict_gate :
    runPipeline true ["A"] [("g", ["B"])] [[some (some 0, some 1)]]
        = Except.error (RunError.consistency "B")
      ∧ runPipeline false ["A"] [("g", ["B"])] [[some (some 0, some 1)]]
        = Except.ok [calc_af [some (some 0, some 1)]] := by
  constructor <;> rfl

end VcfGrpAf
